import Mathlib

/-!
# Verification of the DesignGenius generation workflow

Shallow embedding of the mockup-generation front-end:
* the data model (`DesignConcept`, `GroundingSource`, `GeneratedMockup`,
  `GenerationInput`) from `types.ts`,
* the generation workflow `handleGenerate`, the per-view regeneration
  `handleRegenerateView` and the fullscreen zoom/pan handlers from `App.tsx`,
* the refinement orchestration `refineAndRegenerateMockup` from
  `services/geminiService.ts`.

Network calls are modelled by an oracle (`GenEnv` / `RefineEnv`) giving the
outcome of each request; the cooperative interleaving of the two per-concept
image requests is modelled by a per-concept settle order (`mobileFirst`).
-/

/-- `status` enum of `GeneratedMockup` in `types.ts`. -/
inductive Status where
  | pending
  | generating
  | completed
  | failed
deriving DecidableEq, Repr

/-- The two device views, `'mobile' | 'desktop'`. -/
inductive View where
  | mobile
  | desktop
deriving DecidableEq, Repr

/-- `DesignConcept` record from `types.ts`. -/
structure DesignConcept where
  name : String
  description : String
  imagePrompt : String
deriving DecidableEq, Repr

/-- `GroundingSource` record from `types.ts`. -/
structure GroundingSource where
  title : String
  uri : String
deriving DecidableEq, Repr

/-- `GeneratedMockup` record from `types.ts`.  `regeneratingView := none`
models both the absent (`undefined`) and the `null` field value. -/
structure GeneratedMockup where
  id : String
  conceptName : String
  description : String
  mobileImageUrl : Option String
  desktopImageUrl : Option String
  status : Status
  regeneratingView : Option View
deriving DecidableEq, Repr

/-- `GenerationInput` record from `types.ts`; the binary blobs are modelled
by their base64 payload (`fileToGenerativePart` is treated as pure). -/
structure GenerationInput where
  url : String
  companyInfo : String
  screenshot : Option String
  logo : Option String
deriving DecidableEq, Repr

/-! ## Injectivity of `Nat.repr`

`handleGenerate` keys its state updates on the template string
`mockup-${i}`; correctness of the per-concept updates rests on these ids
being pairwise distinct, i.e. on the decimal printer being injective.
We prove this by a round trip through a digit decoder. -/

/-- Decimal value of a digit character produced by `Nat.digitChar`. -/
def digitVal (c : Char) : Nat := c.toNat - 48

/-- Big-endian value of a digit string. -/
def digitsVal (ds : List Char) : Nat :=
  ds.foldl (fun a c => a * 10 + digitVal c) 0

theorem digitVal_digitChar {d : Nat} (h : d < 10) :
    digitVal (Nat.digitChar d) = d := by
  interval_cases d <;> rfl

theorem foldl_digits_append (xs ys : List Char) (a : Nat) :
    (xs ++ ys).foldl (fun a c => a * 10 + digitVal c) a =
      ys.foldl (fun a c => a * 10 + digitVal c)
        (xs.foldl (fun a c => a * 10 + digitVal c) a) := by
  rw [List.foldl_append]

/-- `Nat.toDigitsCore` prepends the rendered digits to its accumulator. -/
theorem toDigitsCore_acc (fuel : Nat) :
    ∀ (n : Nat) (ds : List Char),
      Nat.toDigitsCore 10 fuel n ds = Nat.toDigitsCore 10 fuel n [] ++ ds := by
  induction fuel with
  | zero => intro n ds; simp [Nat.toDigitsCore]
  | succ fuel ih =>
    intro n ds
    simp only [Nat.toDigitsCore]
    by_cases h : n / 10 = 0
    · simp [h]
    · simp only [h, if_false]
      rw [ih (n / 10) (Nat.digitChar (n % 10) :: ds),
        ih (n / 10) [Nat.digitChar (n % 10)]]
      simp

/-- Round trip: decoding the digits of `n` recovers `n`. -/
theorem digitsVal_toDigitsCore (fuel : Nat) :
    ∀ n : Nat, n < fuel → digitsVal (Nat.toDigitsCore 10 fuel n []) = n := by
  induction fuel with
  | zero => intro n h; omega
  | succ fuel ih =>
    intro n h
    simp only [Nat.toDigitsCore]
    by_cases h0 : n / 10 = 0
    · have hn : n < 10 := by omega
      simp [h0, digitsVal, Nat.mod_eq_of_lt hn, digitVal_digitChar hn]
    · simp only [h0, if_false]
      rw [toDigitsCore_acc]
      have hdiv : n / 10 < fuel := by
        have h1 : 0 < n := by
          rcases Nat.eq_zero_or_pos n with h' | h'
          · exfalso; apply h0; simp [h']
          · exact h'
        have h2 : n / 10 < n := Nat.div_lt_self h1 (by omega)
        omega
      unfold digitsVal
      rw [foldl_digits_append]
      have hrec := ih (n / 10) hdiv
      unfold digitsVal at hrec
      rw [hrec]
      simp only [List.foldl]
      rw [digitVal_digitChar (Nat.mod_lt n (by norm_num))]
      omega

theorem digitsVal_toDigits (n : Nat) :
    digitsVal (Nat.toDigits 10 n) = n :=
  digitsVal_toDigitsCore (n + 1) n (Nat.lt_succ_self n)

theorem toDigits_injective {m n : Nat}
    (h : Nat.toDigits 10 m = Nat.toDigits 10 n) : m = n := by
  have := congrArg digitsVal h
  rwa [digitsVal_toDigits, digitsVal_toDigits] at this

theorem repr_injective {m n : Nat} (h : Nat.repr m = Nat.repr n) : m = n := by
  apply toDigits_injective (m := m) (n := n)
  have : (Nat.toDigits 10 m).asString.data = (Nat.toDigits 10 n).asString.data := by
    rw [show (Nat.toDigits 10 m).asString = Nat.repr m from rfl,
      show (Nat.toDigits 10 n).asString = Nat.repr n from rfl, h]
  simpa [List.asString] using this

/-- The template-literal id `mockup-${i}` used by `handleGenerate`. -/
def mid (i : Nat) : String := "mockup-" ++ toString i

theorem mid_injective {i j : Nat} (h : mid i = mid j) : i = j := by
  unfold mid at h
  have hd : ("mockup-" ++ toString i).data = ("mockup-" ++ toString j).data := by
    rw [h]
  simp only [String.data_append] at hd
  have h2 : (toString i).data = (toString j).data :=
    List.append_cancel_left hd
  have h3 : (toString i : String) = toString j := by
    cases hts : (toString i : String) with
    | mk d1 =>
      cases hts2 : (toString j : String) with
      | mk d2 =>
        rw [hts, hts2] at h2
        simp only at h2
        rw [h2]
  exact repr_injective h3

theorem mid_ne {i j : Nat} (h : i ≠ j) : mid i ≠ mid j :=
  fun hc => h (mid_injective hc)

/-! ## The generation workflow (`handleGenerate` in `App.tsx`)

The workflow's network requests are resolved by an oracle `GenEnv`:
`conceptsResult` is the outcome of `generateDesignConcepts`,
`imageResult i v` the outcome of `generateMockupImage` for the `i`-th
concept and view `v` (`none` = the request rejects), and `mobileFirst i`
the nondeterministic settle order of the two requests of concept `i`
(both are issued before either settles; `Promise.all` awaits them). -/

structure GenEnv where
  conceptsResult : Except Unit (List DesignConcept × List GroundingSource)
  imageResult : Nat → View → Option String
  mobileFirst : Nat → Bool

/-- UI state touched by `handleGenerate` (`App.tsx` `useState` hooks). -/
structure AppState where
  generatedMockups : List GeneratedMockup
  sources : List GroundingSource
  error : Option String
  isAnalyzing : Bool
deriving DecidableEq, Repr

/-- The placeholder seeded for concept `index`
(`concepts.map((concept, index) => ({...status: 'generating'}))`). -/
def seedMockup (index : Nat) (concept : DesignConcept) : GeneratedMockup :=
  { id := mid index
    conceptName := concept.name
    description := concept.description
    mobileImageUrl := none
    desktopImageUrl := none
    status := Status.generating
    regeneratingView := none }

/-- `concepts.map` with its running index starting at `start`. -/
def seedFrom (start : Nat) : List DesignConcept → List GeneratedMockup
  | [] => []
  | c :: cs => seedMockup start c :: seedFrom (start + 1) cs

/-- The `initialMockups` placeholder list. -/
def seedMockups (concepts : List DesignConcept) : List GeneratedMockup :=
  seedFrom 0 concepts

/-- `prev.map(m => m.id === tid ? f m : m)` — the update shape used by
every `setGeneratedMockups` call inside `handleGenerate`. -/
def updateById (tid : String) (f : GeneratedMockup → GeneratedMockup)
    (ms : List GeneratedMockup) : List GeneratedMockup :=
  ms.map (fun m => if m.id = tid then f m else m)

/-- The `.then` update of a resolved image request: write the data-URI into
the field of the settled view. -/
def setView (v : View) (url : String) (m : GeneratedMockup) : GeneratedMockup :=
  match v with
  | View.mobile => { m with mobileImageUrl := some url }
  | View.desktop => { m with desktopImageUrl := some url }

/-- Settlement of the request for view `v` of concept `i`: on success the
`.then` callback stores the URL; on failure the `.catch` callback only
logs and leaves the state untouched. -/
def settleView (env : GenEnv) (i : Nat) (v : View)
    (ms : List GeneratedMockup) : List GeneratedMockup :=
  match env.imageResult i v with
  | some url => updateById (mid i) (setView v url) ms
  | none => ms

/-- State snapshot list contributed by the settlement of view `v`
(a snapshot is appended only when `setGeneratedMockups` runs, i.e. on
success). -/
def settleSnap (env : GenEnv) (i : Nat) (v : View)
    (ms : List GeneratedMockup) : List (List GeneratedMockup) :=
  match env.imageResult i v with
  | some url => [updateById (mid i) (setView v url) ms]
  | none => []

/-- The settle order of the two concurrent requests of concept `i`. -/
def settleOrder (env : GenEnv) (i : Nat) : View × View :=
  if env.mobileFirst i then (View.mobile, View.desktop)
  else (View.desktop, View.mobile)

/-- One iteration of the `for` loop of `handleGenerate`: both requests of
concept `i` settle (in the order chosen by `mobileFirst i`), then
`status` is set to `'completed'`.  Returns the final list together with
the snapshots after each `setGeneratedMockups` call. -/
def conceptRunS (env : GenEnv) (i : Nat) (ms : List GeneratedMockup) :
    List GeneratedMockup × List (List GeneratedMockup) :=
  let p : View × View := settleOrder env i
  let ms1 := settleView env i p.1 ms
  let ms2 := settleView env i p.2 ms1
  let ms3 := updateById (mid i) (fun m => { m with status := Status.completed }) ms2
  (ms3, settleSnap env i p.1 ms ++ settleSnap env i p.2 ms1 ++ [ms3])

/-- The `for (let i = 0; ...)` loop, processing the given concept indices
left to right. -/
def loopRun (env : GenEnv) : List Nat → List GeneratedMockup →
    List GeneratedMockup × List (List GeneratedMockup)
  | [], ms => (ms, [])
  | i :: is, ms =>
    let r := conceptRunS env i ms
    let rest := loopRun env is r.1
    (rest.1, r.2 ++ rest.2)

/-- Error message set when no screenshot was uploaded. -/
def screenshotErrorMsg : String :=
  "Please upload a screenshot of the current website."

/-- Generic error message of the `catch` block of `handleGenerate`. -/
def analyzeErrorMsg : String :=
  "Failed to analyze website. Please ensure the API key is valid and try again."

/-- Final UI state of one `handleGenerate` run from state `st`. -/
def handleGenerate (env : GenEnv) (input : GenerationInput)
    (st : AppState) : AppState :=
  if input.screenshot.isNone then
    { st with error := some screenshotErrorMsg }
  else
    match env.conceptsResult with
    | Except.error _ =>
      { generatedMockups := [], sources := [],
        error := some analyzeErrorMsg, isAnalyzing := false }
    | Except.ok r =>
      { generatedMockups :=
          (loopRun env (List.range r.1.length) (seedMockups r.1)).1
        sources := r.2, error := none, isAnalyzing := false }

/-- The successive values taken by `generatedMockups` during one
`handleGenerate` run (one entry per `setGeneratedMockups` call). -/
def handleGenerateSnaps (env : GenEnv) (input : GenerationInput) :
    List (List GeneratedMockup) :=
  if input.screenshot.isNone then []
  else
    [] ::
    match env.conceptsResult with
    | Except.error _ => []
    | Except.ok r =>
      seedMockups r.1 :: (loopRun env (List.range r.1.length) (seedMockups r.1)).2

/-! ## Event trace of the workflow

For the temporal claims we also record the observable events of a run:
issuing / settling image requests, console logging, seeding and status
updates, in program order. -/

inductive Event where
  | requestConcepts
  | seedPlaceholders (n : Nat)
  | issueImage (i : Nat) (v : View)
  | settleImage (i : Nat) (v : View) (ok : Bool)
  | logImageFailure (i : Nat) (v : View)
  | markCompleted (i : Nat)
  | logWorkflowFailure
deriving DecidableEq, Repr

/-- Events of the settlement of one request: a failed request settles and
its `.catch` logs the error. -/
def settleEvents (env : GenEnv) (i : Nat) (v : View) : List Event :=
  match env.imageResult i v with
  | some _ => [Event.settleImage i v true]
  | none => [Event.settleImage i v false, Event.logImageFailure i v]

/-- Events of one loop iteration: both requests are issued, then both
settle in the order chosen by the environment, then the status update. -/
def eventBlock (env : GenEnv) (i : Nat) : List Event :=
  [Event.issueImage i View.mobile, Event.issueImage i View.desktop] ++
    (if env.mobileFirst i then
      settleEvents env i View.mobile ++ settleEvents env i View.desktop
    else
      settleEvents env i View.desktop ++ settleEvents env i View.mobile) ++
    [Event.markCompleted i]

def loopEvents (env : GenEnv) : List Nat → List Event
  | [] => []
  | i :: is => eventBlock env i ++ loopEvents env is

/-- Event trace of one `handleGenerate` run. -/
def generateTrace (env : GenEnv) (input : GenerationInput) : List Event :=
  if input.screenshot.isNone then []
  else
    Event.requestConcepts ::
    match env.conceptsResult with
    | Except.error _ => [Event.logWorkflowFailure]
    | Except.ok r =>
      Event.seedPlaceholders r.1.length :: loopEvents env (List.range r.1.length)

/-! ## Pointwise characterization of the workflow's state updates -/

theorem setView_id (v : View) (url : String) (m : GeneratedMockup) :
    (setView v url m).id = m.id := by
  cases v <;> rfl

theorem setView_status (v : View) (url : String) (m : GeneratedMockup) :
    (setView v url m).status = m.status := by
  cases v <;> rfl

theorem updateById_getElem? (tid : String) (f : GeneratedMockup → GeneratedMockup)
    (ms : List GeneratedMockup) (k : Nat) :
    (updateById tid f ms)[k]? =
      (ms[k]?).map (fun m => if m.id = tid then f m else m) := by
  simp [updateById, List.getElem?_map]

theorem updateById_updateById (tid : String)
    (f g : GeneratedMockup → GeneratedMockup)
    (hg : ∀ m, (g m).id = m.id) (ms : List GeneratedMockup) :
    updateById tid f (updateById tid g ms) =
      updateById tid (fun m => f (g m)) ms := by
  unfold updateById
  rw [List.map_map]
  apply List.map_congr_left
  intro m _
  by_cases h : m.id = tid
  · simp [Function.comp, h, hg]
  · simp [Function.comp, h]

/-- Writing the outcome of an image request into an image field: a
successful request overwrites the field, a failed one leaves it alone. -/
def applyResult (r : Option String) (old : Option String) : Option String :=
  match r with
  | some url => some url
  | none => old

/-- Net effect of one loop iteration on the mockup of its own concept:
both image fields receive their request's outcome and the status becomes
`'completed'` — independent of the settle order. -/
def conceptTransform (env : GenEnv) (i : Nat) (m : GeneratedMockup) :
    GeneratedMockup :=
  { m with
    mobileImageUrl := applyResult (env.imageResult i View.mobile) m.mobileImageUrl
    desktopImageUrl := applyResult (env.imageResult i View.desktop) m.desktopImageUrl
    status := Status.completed }

theorem conceptTransform_id (env : GenEnv) (i : Nat) (m : GeneratedMockup) :
    (conceptTransform env i m).id = m.id := rfl

theorem conceptRunS_fst (env : GenEnv) (i : Nat) (ms : List GeneratedMockup) :
    (conceptRunS env i ms).1 = updateById (mid i) (conceptTransform env i) ms := by
  rcases Bool.eq_false_or_eq_true (env.mobileFirst i) with hmf | hmf <;>
    rcases hmob : env.imageResult i View.mobile with _ | umob <;>
      rcases hdes : env.imageResult i View.desktop with _ | udes <;>
        simp only [conceptRunS, settleOrder, settleView, hmf, hmob, hdes,
          Bool.false_eq_true, if_true, if_false, ite_true, ite_false] <;>
        (repeat rw [updateById_updateById _ _ _ (setView_id _ _)]) <;>
        (unfold updateById
         apply List.map_congr_left
         intro m _
         by_cases h : m.id = mid i <;>
           simp [h, conceptTransform, setView, applyResult, hmob, hdes])

theorem seedFrom_getElem? (cs : List DesignConcept) :
    ∀ (start k : Nat),
      (seedFrom start cs)[k]? = (cs[k]?).map (fun c => seedMockup (start + k) c) := by
  induction cs with
  | nil => intro start k; simp [seedFrom]
  | cons c cs ih =>
    intro start k
    cases k with
    | zero => simp [seedFrom]
    | succ k =>
      simp only [seedFrom, List.getElem?_cons_succ, ih (start + 1) k]
      have harith : start + 1 + k = start + (k + 1) := by omega
      rw [harith]

theorem seedMockups_getElem? (concepts : List DesignConcept) (k : Nat) :
    (seedMockups concepts)[k]? = (concepts[k]?).map (seedMockup k) := by
  unfold seedMockups
  rw [seedFrom_getElem?]
  simp

/-- Pointwise effect of the whole loop: the entry seeded for concept `k` is
transformed by its own iteration exactly once (if `k` is processed) and is
untouched by every other iteration. -/
theorem loopRun_fst_getElem? (env : GenEnv) :
    ∀ (is : List Nat) (ms : List GeneratedMockup) (k : Nat) (m : GeneratedMockup),
      ms[k]? = some m → m.id = mid k → is.Nodup →
      ((loopRun env is ms).1)[k]? =
        some (if k ∈ is then conceptTransform env k m else m) := by
  intro is
  induction is with
  | nil => intro ms k m hm _ _; simp [loopRun, hm]
  | cons i is ih =>
    intro ms k m hm hid hnd
    rw [List.nodup_cons] at hnd
    have hstep : ((conceptRunS env i ms).1)[k]? =
        some (if m.id = mid i then conceptTransform env i m else m) := by
      rw [conceptRunS_fst, updateById_getElem?, hm]
      rfl
    by_cases hik : i = k
    · subst hik
      rw [hid] at hstep
      simp only [if_pos rfl] at hstep
      have hrec := ih (conceptRunS env i ms).1 i (conceptTransform env i m)
        hstep (by rw [conceptTransform_id, hid]) hnd.2
      rw [loopRun]
      simp only []
      rw [hrec, if_neg hnd.1]
      simp
    · have hne : m.id ≠ mid i := by
        rw [hid]; exact mid_ne (fun hc => hik hc.symm)
      rw [if_neg hne] at hstep
      have hrec := ih (conceptRunS env i ms).1 k m hstep hid hnd.2
      rw [loopRun]
      simp only []
      rw [hrec]
      by_cases hk : k ∈ is
      · rw [if_pos hk, if_pos (List.mem_cons_of_mem _ hk)]
      · rw [if_neg hk, if_neg (by
          intro hc
          rcases List.mem_cons.mp hc with h1 | h1
          · exact hik h1.symm
          · exact hk h1)]

theorem applyResult_none (r : Option String) : applyResult r none = r := by
  cases r <;> rfl

/-- Final mockup list of a successful `handleGenerate` run, pointwise: the
`k`-th mockup carries the outcome of both of its image requests and status
`'completed'`. -/
theorem handleGenerate_mockups_getElem? (env : GenEnv) (input : GenerationInput)
    (st : AppState) (concepts : List DesignConcept) (srcs : List GroundingSource)
    (hss : input.screenshot.isNone = false)
    (hok : env.conceptsResult = Except.ok (concepts, srcs))
    (k : Nat) (c : DesignConcept) (hc : concepts[k]? = some c) :
    ((handleGenerate env input st).generatedMockups)[k]? =
      some { id := mid k
             conceptName := c.name
             description := c.description
             mobileImageUrl := env.imageResult k View.mobile
             desktopImageUrl := env.imageResult k View.desktop
             status := Status.completed
             regeneratingView := none } := by
  unfold handleGenerate
  rw [hss]
  simp only [Bool.false_eq_true, if_false, hok]
  have hk : k < concepts.length := by
    by_contra hk
    rw [List.getElem?_eq_none (by omega)] at hc
    exact Option.noConfusion hc
  have hseed : (seedMockups concepts)[k]? = some (seedMockup k c) := by
    rw [seedMockups_getElem?, hc]; rfl
  have := loopRun_fst_getElem? env (List.range concepts.length)
    (seedMockups concepts) k (seedMockup k c) hseed rfl (List.nodup_range _)
  rw [if_pos (List.mem_range.mpr hk)] at this
  rw [this]
  simp [conceptTransform, seedMockup, applyResult_none]

/-! ## Concrete fixtures used by witnesses and counterexamples -/

def conceptA : DesignConcept :=
  { name := "Minimalist Tech", description := "Clean, airy layout",
    imagePrompt := "High quality website mockup" }

def conceptB : DesignConcept :=
  { name := "Bold Disruptive", description := "High contrast hero",
    imagePrompt := "Bold website mockup" }

def inputW : GenerationInput :=
  { url := "https://example.com", companyInfo := "A small company",
    screenshot := some "c2NyZWVuc2hvdA==", logo := none }

def inputNoShot : GenerationInput :=
  { url := "https://example.com", companyInfo := "A small company",
    screenshot := none, logo := none }

def stW : AppState :=
  { generatedMockups := [], sources := [], error := none, isAnalyzing := false }

/-- Oracle: concepts succeed, the mobile request of every concept fails and
the desktop one succeeds, mobile settles first. -/
def envMobileFails : GenEnv :=
  { conceptsResult := Except.ok ([conceptA, conceptB], [])
    imageResult := fun _ v =>
      match v with
      | View.mobile => none
      | View.desktop => some "data:image/png;base64,ZGVza3RvcA=="
    mobileFirst := fun _ => true }

/-- Oracle: the research call itself rejects. -/
def envResearchFails : GenEnv :=
  { conceptsResult := Except.error ()
    imageResult := fun _ _ => none
    mobileFirst := fun _ => true }

/-! ## Claim theorems: final-state claims about `handleGenerate` -/

/-- C1: for every concept the mobile and desktop requests are independent:
a success on either view writes its URL into the corresponding mockup's
image field regardless of the other request's outcome, and the mockup's
status is `'completed'` once both have settled, even if either failed. -/
theorem generation_requests_independent
    (env : GenEnv) (input : GenerationInput) (st : AppState)
    (concepts : List DesignConcept) (srcs : List GroundingSource)
    (hss : input.screenshot.isNone = false)
    (hok : env.conceptsResult = Except.ok (concepts, srcs))
    (i : Nat) (hi : i < concepts.length) :
    ∃ m : GeneratedMockup,
      ((handleGenerate env input st).generatedMockups)[i]? = some m ∧
      m.status = Status.completed ∧
      (∀ url, env.imageResult i View.mobile = some url →
        m.mobileImageUrl = some url) ∧
      (∀ url, env.imageResult i View.desktop = some url →
        m.desktopImageUrl = some url) := by
  have hc : concepts[i]? = some concepts[i] := List.getElem?_eq_getElem hi
  refine ⟨_, handleGenerate_mockups_getElem? env input st concepts srcs hss hok
    i concepts[i] hc, rfl, ?_, ?_⟩
  · intro url hurl; simpa using hurl
  · intro url hurl; simpa using hurl

theorem generation_requests_independent_witness :
    ∃ m : GeneratedMockup,
      ((handleGenerate envMobileFails inputW stW).generatedMockups)[0]? = some m ∧
      m.status = Status.completed ∧
      (∀ url, envMobileFails.imageResult 0 View.mobile = some url →
        m.mobileImageUrl = some url) ∧
      (∀ url, envMobileFails.imageResult 0 View.desktop = some url →
        m.desktopImageUrl = some url) :=
  generation_requests_independent envMobileFails inputW stW
    [conceptA, conceptB] [] rfl rfl 0 (by decide)

/-- C4: if the research call `generateDesignConcepts` rejects, the run
aborts with the single generic error message, with no placeholders seeded
and no image-generation request issued. -/
theorem research_failure_aborts
    (env : GenEnv) (input : GenerationInput) (st : AppState)
    (hss : input.screenshot.isNone = false)
    (herr : env.conceptsResult = Except.error ()) :
    (handleGenerate env input st).error = some analyzeErrorMsg ∧
    (handleGenerate env input st).generatedMockups = [] ∧
    (∀ n, Event.seedPlaceholders n ∉ generateTrace env input) ∧
    (∀ i v, Event.issueImage i v ∉ generateTrace env input) := by
  unfold handleGenerate generateTrace
  rw [hss, herr]
  simp

theorem research_failure_aborts_witness :
    (handleGenerate envResearchFails inputW stW).error = some analyzeErrorMsg ∧
    (handleGenerate envResearchFails inputW stW).generatedMockups = [] ∧
    Event.seedPlaceholders 3 ∉ generateTrace envResearchFails inputW ∧
    Event.issueImage 0 View.mobile ∉ generateTrace envResearchFails inputW := by
  have h := research_failure_aborts envResearchFails inputW stW rfl rfl
  exact ⟨h.1, h.2.1, h.2.2.1 3, h.2.2.2 0 View.mobile⟩

/-- C5: with no screenshot the workflow halts at once: the error message is
set, the mockup list and sources are untouched, and no request of any kind
is made (the event trace is empty). -/
theorem no_screenshot_halts
    (env : GenEnv) (input : GenerationInput) (st : AppState)
    (hss : input.screenshot = none) :
    handleGenerate env input st = { st with error := some screenshotErrorMsg } ∧
    (handleGenerate env input st).generatedMockups = st.generatedMockups ∧
    (handleGenerate env input st).sources = st.sources ∧
    generateTrace env input = [] := by
  unfold handleGenerate generateTrace
  rw [hss]
  simp

theorem no_screenshot_halts_witness :
    handleGenerate envMobileFails inputNoShot stW =
      { stW with error := some screenshotErrorMsg } ∧
    (handleGenerate envMobileFails inputNoShot stW).generatedMockups =
      stW.generatedMockups ∧
    (handleGenerate envMobileFails inputNoShot stW).sources = stW.sources ∧
    generateTrace envMobileFails inputNoShot = [] :=
  no_screenshot_halts envMobileFails inputNoShot stW rfl

/-! ## Status history of a mockup across the run's state snapshots -/

/-- Status of the `k`-th mockup in each snapshot in which it exists. The
`k`-th entry of every snapshot is the mockup with id `mockup-${k}`: all
updates go through `Array.prototype.map` and preserve ids and positions. -/
def statusHistory (k : Nat) (snaps : List (List GeneratedMockup)) : List Status :=
  snaps.filterMap (fun ms => (ms[k]?).map (fun m => m.status))

/-- Collapse maximal runs of equal consecutive statuses, leaving the
sequence of distinct transitions. -/
def collapseRuns : List Status → List Status
  | [] => []
  | [s] => [s]
  | s :: t :: rest =>
    if s = t then collapseRuns (t :: rest) else s :: collapseRuns (t :: rest)

theorem filterMap_eq_replicate {α β : Type} (f : α → Option β) (x : β) :
    ∀ l : List α, (∀ s ∈ l, f s = some x) →
      l.filterMap f = List.replicate l.length x := by
  intro l
  induction l with
  | nil => intro _; rfl
  | cons s l ih =>
    intro h
    rw [List.filterMap_cons, h s (List.mem_cons_self _ _)]
    simp only [List.length_cons, List.replicate_succ]
    rw [ih (fun t ht => h t (List.mem_cons_of_mem _ ht))]

theorem updateById_getElem?_ne (tid : String) (f : GeneratedMockup → GeneratedMockup)
    (ms : List GeneratedMockup) (k : Nat) (m : GeneratedMockup)
    (hm : ms[k]? = some m) (hne : m.id ≠ tid) :
    (updateById tid f ms)[k]? = some m := by
  rw [updateById_getElem?, hm]
  simp [hne]

theorem settleView_getElem?_status (env : GenEnv) (i : Nat) (v : View)
    (ms : List GeneratedMockup) (k : Nat) (m : GeneratedMockup)
    (hm : ms[k]? = some m) :
    ∃ m', (settleView env i v ms)[k]? = some m' ∧
      m'.status = m.status ∧ m'.id = m.id := by
  unfold settleView
  cases env.imageResult i v with
  | none => exact ⟨m, hm, rfl, rfl⟩
  | some url =>
    rw [updateById_getElem?, hm]
    by_cases h : m.id = mid i
    · exact ⟨setView v url m, by simp [h], setView_status v url m, setView_id v url m⟩
    · exact ⟨m, by simp [h], rfl, rfl⟩

theorem settleSnap_mem_status (env : GenEnv) (i : Nat) (v : View)
    (ms : List GeneratedMockup) (k : Nat) (m : GeneratedMockup)
    (hm : ms[k]? = some m) :
    ∀ s ∈ settleSnap env i v ms,
      (s[k]?).map (fun m' => m'.status) = some m.status := by
  intro s hs
  unfold settleSnap at hs
  cases henv : env.imageResult i v with
  | none => rw [henv] at hs; exact absurd hs (List.not_mem_nil s)
  | some url =>
    rw [henv] at hs
    rcases List.mem_singleton.mp hs with rfl
    rw [updateById_getElem?, hm]
    by_cases h : m.id = mid i <;> simp [h, setView_status]

theorem conceptRunS_snd (env : GenEnv) (i : Nat) (ms : List GeneratedMockup) :
    (conceptRunS env i ms).2 =
      settleSnap env i (settleOrder env i).1 ms ++
        settleSnap env i (settleOrder env i).2
          (settleView env i (settleOrder env i).1 ms) ++
        [(conceptRunS env i ms).1] := rfl

/-- Status history contributed by a single loop iteration to the `k`-th
mockup: its status is untouched by the image snapshots and the final
snapshot sets it to `'completed'` exactly when the iteration is its own. -/
theorem conceptRunS_statusHistory (env : GenEnv) (i : Nat)
    (ms : List GeneratedMockup) (k : Nat) (m : GeneratedMockup)
    (hm : ms[k]? = some m) :
    ∃ a : Nat, statusHistory k (conceptRunS env i ms).2 =
      List.replicate a m.status ++
        [if m.id = mid i then Status.completed else m.status] := by
  rw [conceptRunS_snd]
  unfold statusHistory
  rw [List.filterMap_append, List.filterMap_append]
  obtain ⟨m1, hm1, hm1s, _⟩ :=
    settleView_getElem?_status env i (settleOrder env i).1 ms k m hm
  have h1 := filterMap_eq_replicate _ _ (settleSnap env i (settleOrder env i).1 ms)
    (settleSnap_mem_status env i (settleOrder env i).1 ms k m hm)
  have h2' := settleSnap_mem_status env i (settleOrder env i).2 _ k m1 hm1
  have h2 := filterMap_eq_replicate _ _
    (settleSnap env i (settleOrder env i).2 (settleView env i (settleOrder env i).1 ms))
    h2'
  rw [h1, h2, hm1s]
  have hlast : ((conceptRunS env i ms).1)[k]? =
      some (if m.id = mid i then conceptTransform env i m else m) := by
    rw [conceptRunS_fst, updateById_getElem?, hm]
    rfl
  refine ⟨(settleSnap env i (settleOrder env i).1 ms).length +
    (settleSnap env i (settleOrder env i).2
      (settleView env i (settleOrder env i).1 ms)).length, ?_⟩
  rw [List.filterMap_cons, List.filterMap_nil, hlast]
  have hmap : Option.map (fun m' : GeneratedMockup => m'.status)
      (some (if m.id = mid i then conceptTransform env i m else m)) =
      some (if m.id = mid i then Status.completed else m.status) := by
    by_cases h : m.id = mid i
    · rw [if_pos h, if_pos h]
      rfl
    · rw [if_neg h, if_neg h]
      rfl
  rw [hmap]
  show List.replicate _ m.status ++ List.replicate _ m.status ++
      [if m.id = mid i then Status.completed else m.status] = _
  rw [← List.replicate_add]

/-- Status history produced by the whole loop for the `k`-th mockup:
a run of its initial status followed, once its own iteration has run, by a
non-empty run of `'completed'`. -/
theorem loopRun_statusHistory (env : GenEnv) :
    ∀ (is : List Nat) (ms : List GeneratedMockup) (k : Nat) (m : GeneratedMockup),
      ms[k]? = some m → m.id = mid k → is.Nodup →
      (k ∈ is → ∃ a b, statusHistory k (loopRun env is ms).2 =
        List.replicate a m.status ++ List.replicate (b + 1) Status.completed) ∧
      (k ∉ is → ∃ a, statusHistory k (loopRun env is ms).2 =
        List.replicate a m.status) := by
  intro is
  induction is with
  | nil =>
    intro ms k m _ _ _
    exact ⟨fun h => absurd h (List.not_mem_nil k), fun _ => ⟨0, rfl⟩⟩
  | cons i is ih =>
    intro ms k m hm hid hnd
    rw [List.nodup_cons] at hnd
    have hsplit : statusHistory k (loopRun env (i :: is) ms).2 =
        statusHistory k (conceptRunS env i ms).2 ++
          statusHistory k (loopRun env is (conceptRunS env i ms).1).2 := by
      rw [loopRun]
      unfold statusHistory
      rw [List.filterMap_append]
    obtain ⟨a1, ha1⟩ := conceptRunS_statusHistory env i ms k m hm
    have hlast : ((conceptRunS env i ms).1)[k]? =
        some (if m.id = mid i then conceptTransform env i m else m) := by
      rw [conceptRunS_fst, updateById_getElem?, hm]
      rfl
    by_cases hik : i = k
    · subst hik
      rw [if_pos hid] at hlast
      rw [if_pos hid] at ha1
      have hrec := ih (conceptRunS env i ms).1 i (conceptTransform env i m)
        hlast (by rw [conceptTransform_id, hid]) hnd.2
      obtain ⟨a2, ha2⟩ := hrec.2 hnd.1
      constructor
      · intro _
        refine ⟨a1, a2, ?_⟩
        rw [hsplit, ha1, ha2]
        have hts : (conceptTransform env i m).status = Status.completed := rfl
        rw [hts, List.append_assoc, List.replicate_succ]
        rfl
      · intro hc
        exact absurd (List.mem_cons_self i is) hc
    · have hne : m.id ≠ mid i := by
        rw [hid]; exact mid_ne (fun hc => hik hc.symm)
      rw [if_neg hne] at hlast
      rw [if_neg hne] at ha1
      have hrec := ih (conceptRunS env i ms).1 k m hlast hid hnd.2
      have hpart1 : statusHistory k (conceptRunS env i ms).2 =
          List.replicate (a1 + 1) m.status := by
        rw [ha1, List.replicate_succ']
      constructor
      · intro hkmem
        have hkis : k ∈ is := by
          rcases List.mem_cons.mp hkmem with h1 | h1
          · exact absurd h1.symm hik
          · exact h1
        obtain ⟨a, b, hab⟩ := hrec.1 hkis
        refine ⟨a1 + 1 + a, b, ?_⟩
        rw [hsplit, hpart1, hab, ← List.append_assoc, ← List.replicate_add]
      · intro hknot
        have hknotis : k ∉ is := fun h => hknot (List.mem_cons_of_mem _ h)
        obtain ⟨a, ha⟩ := hrec.2 hknotis
        refine ⟨a1 + 1 + a, ?_⟩
        rw [hsplit, hpart1, ha, ← List.replicate_add]

theorem collapseRuns_cons_replicate (s : Status) :
    ∀ b : Nat, collapseRuns (s :: List.replicate b s) = [s] := by
  intro b
  induction b with
  | zero => rfl
  | succ b ih =>
    rw [List.replicate_succ]
    show collapseRuns (s :: s :: List.replicate b s) = [s]
    rw [collapseRuns, if_pos rfl, ih]

theorem collapseRuns_replicate_append (s t : Status) (hne : s ≠ t) :
    ∀ a b : Nat,
      collapseRuns (List.replicate (a + 1) s ++ List.replicate (b + 1) t) =
        [s, t] := by
  intro a
  induction a with
  | zero =>
    intro b
    simp only [List.replicate_succ, List.replicate_zero, List.cons_append,
      List.nil_append]
    rw [collapseRuns, if_neg hne, collapseRuns_cons_replicate]
  | succ a ih =>
    intro b
    have hsh : List.replicate (a + 1 + 1) s ++ List.replicate (b + 1) t =
        s :: (List.replicate (a + 1) s ++ List.replicate (b + 1) t) := by
      rw [List.replicate_succ, List.cons_append]
    rw [hsh]
    have hsh2 : List.replicate (a + 1) s ++ List.replicate (b + 1) t =
        s :: (List.replicate a s ++ List.replicate (b + 1) t) := by
      rw [List.replicate_succ, List.cons_append]
    rw [hsh2, collapseRuns, if_pos rfl, ← hsh2, ih b]

theorem not_mem_replicate_append (x s t : Status) (hxs : x ≠ s) (hxt : x ≠ t)
    (a b : Nat) :
    x ∉ List.replicate a s ++ List.replicate b t := by
  intro hmem
  rcases List.mem_append.mp hmem with h | h <;>
    first
    | exact hxs (List.eq_of_mem_replicate h)
    | exact hxt (List.eq_of_mem_replicate h)

/-! ## Trace membership: failures are logged -/

theorem eventBlock_log_mem (env : GenEnv) (i : Nat) (v : View)
    (hfail : env.imageResult i v = none) :
    Event.logImageFailure i v ∈ eventBlock env i := by
  unfold eventBlock
  rcases Bool.eq_false_or_eq_true (env.mobileFirst i) with hmf | hmf <;>
    rw [hmf] <;> cases v <;>
      simp [settleEvents, hfail]

theorem loopEvents_log_mem (env : GenEnv) (i : Nat) (v : View)
    (hfail : env.imageResult i v = none) :
    ∀ is : List Nat, i ∈ is →
      Event.logImageFailure i v ∈ loopEvents env is := by
  intro is
  induction is with
  | nil => intro h; exact absurd h (List.not_mem_nil i)
  | cons j is ih =>
    intro h
    rw [loopEvents]
    rcases List.mem_cons.mp h with h1 | h1
    · subst h1
      exact List.mem_append_left _ (eventBlock_log_mem env i v hfail)
    · exact List.mem_append_right _ (ih h1)

theorem generateTrace_log_mem (env : GenEnv) (input : GenerationInput)
    (concepts : List DesignConcept) (srcs : List GroundingSource)
    (hss : input.screenshot.isNone = false)
    (hok : env.conceptsResult = Except.ok (concepts, srcs))
    (i : Nat) (v : View) (hi : i < concepts.length)
    (hfail : env.imageResult i v = none) :
    Event.logImageFailure i v ∈ generateTrace env input := by
  unfold generateTrace
  rw [hss, hok]
  simp only [Bool.false_eq_true, if_false]
  refine List.mem_cons_of_mem _ (List.mem_cons_of_mem _ ?_)
  exact loopEvents_log_mem env i v hfail _ (List.mem_range.mpr hi)

/-- Status history of the `k`-th mockup over a whole successful run: a
non-empty run of `'generating'` followed by a non-empty run of
`'completed'`. -/
theorem handleGenerateSnaps_statusHistory (env : GenEnv) (input : GenerationInput)
    (concepts : List DesignConcept) (srcs : List GroundingSource)
    (hss : input.screenshot.isNone = false)
    (hok : env.conceptsResult = Except.ok (concepts, srcs))
    (k : Nat) (hk : k < concepts.length) :
    ∃ a b : Nat, statusHistory k (handleGenerateSnaps env input) =
      List.replicate (a + 1) Status.generating ++
        List.replicate (b + 1) Status.completed := by
  unfold handleGenerateSnaps
  rw [hss, hok]
  simp only [Bool.false_eq_true, if_false]
  have hseed : (seedMockups concepts)[k]? = some (seedMockup k concepts[k]) := by
    rw [seedMockups_getElem?, List.getElem?_eq_getElem hk]
    rfl
  have hloop := loopRun_statusHistory env (List.range concepts.length)
    (seedMockups concepts) k (seedMockup k concepts[k]) hseed rfl
    (List.nodup_range _)
  obtain ⟨a, b, hab⟩ := hloop.1 (List.mem_range.mpr hk)
  refine ⟨a, b, ?_⟩
  unfold statusHistory
  rw [List.filterMap_cons, List.filterMap_cons]
  simp only [List.getElem?_nil, Option.map_none', hseed, Option.map_some']
  unfold statusHistory at hab
  rw [hab]
  show Status.generating ::
      (List.replicate a Status.generating ++ List.replicate (b + 1) Status.completed) = _
  rw [List.replicate_succ]
  rfl

/-- C3 (amended): in every run each mockup's status follows the transition
sequence generating → completed (it is seeded directly as `'generating'`,
with no `'pending'` phase), regardless of image failures; the statuses
`'pending'` and `'failed'` never occur. -/
theorem generate_status_transitions (env : GenEnv) (input : GenerationInput)
    (concepts : List DesignConcept) (srcs : List GroundingSource)
    (hss : input.screenshot.isNone = false)
    (hok : env.conceptsResult = Except.ok (concepts, srcs))
    (k : Nat) (hk : k < concepts.length) :
    collapseRuns (statusHistory k (handleGenerateSnaps env input)) =
      [Status.generating, Status.completed] ∧
    Status.pending ∉ statusHistory k (handleGenerateSnaps env input) ∧
    Status.failed ∉ statusHistory k (handleGenerateSnaps env input) := by
  obtain ⟨a, b, hab⟩ :=
    handleGenerateSnaps_statusHistory env input concepts srcs hss hok k hk
  rw [hab]
  refine ⟨collapseRuns_replicate_append _ _ (by decide) a b, ?_, ?_⟩
  · exact not_mem_replicate_append _ _ _ (by decide) (by decide) _ _
  · exact not_mem_replicate_append _ _ _ (by decide) (by decide) _ _

theorem generate_status_transitions_witness :
    collapseRuns (statusHistory 0 (handleGenerateSnaps envMobileFails inputW)) =
      [Status.generating, Status.completed] ∧
    Status.pending ∉ statusHistory 0 (handleGenerateSnaps envMobileFails inputW) ∧
    Status.failed ∉ statusHistory 0 (handleGenerateSnaps envMobileFails inputW) :=
  generate_status_transitions envMobileFails inputW [conceptA, conceptB] []
    rfl rfl 0 (by decide)

/-- C3 counterexample: in a concrete successful run the status history of
mockup 0 never contains `'pending'`, so it does not follow the claimed
`pending → generating → completed` transition sequence. -/
theorem generate_status_no_pending_counterexample :
    collapseRuns (statusHistory 0 (handleGenerateSnaps envMobileFails inputW)) ≠
      [Status.pending, Status.generating, Status.completed] ∧
    Status.pending ∉ statusHistory 0 (handleGenerateSnaps envMobileFails inputW) := by
  decide

/-- C2 (amended): an image-generation failure is caught and logged and the
sibling concepts' generation continues unaffected, but the failing
concept's slot ends with status `'completed'` (its failed view's URL stays
`null`), not `'failed'`. -/
theorem image_failure_caught_logged (env : GenEnv) (input : GenerationInput)
    (st : AppState) (concepts : List DesignConcept) (srcs : List GroundingSource)
    (hss : input.screenshot.isNone = false)
    (hok : env.conceptsResult = Except.ok (concepts, srcs))
    (i : Nat) (v : View) (hi : i < concepts.length)
    (hfail : env.imageResult i v = none) :
    Event.logImageFailure i v ∈ generateTrace env input ∧
    (∃ m, ((handleGenerate env input st).generatedMockups)[i]? = some m ∧
      m.status = Status.completed ∧
      (v = View.mobile → m.mobileImageUrl = none) ∧
      (v = View.desktop → m.desktopImageUrl = none)) ∧
    (∀ j, j < concepts.length → j ≠ i →
      ∃ m', ((handleGenerate env input st).generatedMockups)[j]? = some m' ∧
        m'.status = Status.completed ∧
        m'.mobileImageUrl = env.imageResult j View.mobile ∧
        m'.desktopImageUrl = env.imageResult j View.desktop) := by
  refine ⟨generateTrace_log_mem env input concepts srcs hss hok i v hi hfail,
    ?_, ?_⟩
  · refine ⟨_, handleGenerate_mockups_getElem? env input st concepts srcs hss hok
      i concepts[i] (List.getElem?_eq_getElem hi), rfl, ?_, ?_⟩
    · intro hv
      subst hv
      exact hfail
    · intro hv
      subst hv
      exact hfail
  · intro j hj _
    exact ⟨_, handleGenerate_mockups_getElem? env input st concepts srcs hss hok
      j concepts[j] (List.getElem?_eq_getElem hj), rfl, rfl, rfl⟩

theorem image_failure_caught_logged_witness :
    Event.logImageFailure 0 View.mobile ∈ generateTrace envMobileFails inputW ∧
    (∃ m, ((handleGenerate envMobileFails inputW stW).generatedMockups)[0]? =
        some m ∧
      m.status = Status.completed ∧
      (View.mobile = View.mobile → m.mobileImageUrl = none) ∧
      (View.mobile = View.desktop → m.desktopImageUrl = none)) ∧
    (∀ j, j < ([conceptA, conceptB] : List DesignConcept).length → j ≠ 0 →
      ∃ m', ((handleGenerate envMobileFails inputW stW).generatedMockups)[j]? =
          some m' ∧
        m'.status = Status.completed ∧
        m'.mobileImageUrl = envMobileFails.imageResult j View.mobile ∧
        m'.desktopImageUrl = envMobileFails.imageResult j View.desktop) :=
  image_failure_caught_logged envMobileFails inputW stW [conceptA, conceptB] []
    rfl rfl 0 View.mobile (by decide) rfl

/-- C2 counterexample: concept 0's mobile request fails in this concrete
run, yet its mockup slot ends with status `'completed'`, not `'failed'`. -/
theorem image_failure_status_counterexample :
    envMobileFails.imageResult 0 View.mobile = none ∧
    Option.map (fun m => m.status)
        ((handleGenerate envMobileFails inputW stW).generatedMockups)[0]? =
      some Status.completed ∧
    Status.completed ≠ Status.failed := by
  decide

/-! ## C8: at most two image requests in flight, concept after concept -/

/-- Change of the number of in-flight image requests caused by an event. -/
def inflightDelta : Event → Int
  | Event.issueImage _ _ => 1
  | Event.settleImage _ _ _ => -1
  | _ => 0

/-- Number of image requests in flight after the events of `tr`. -/
def inflight (tr : List Event) : Int := (tr.map inflightDelta).sum

/-- Running check that every prefix sum starting from `acc` stays within
`[0, 2]`. -/
def boundedBy2 : Int → List Int → Bool
  | _, [] => true
  | acc, d :: rest =>
    decide (0 ≤ acc + d) && decide (acc + d ≤ 2) && boundedBy2 (acc + d) rest

theorem boundedBy2_append (ys : List Int) :
    ∀ (xs : List Int) (a : Int),
      boundedBy2 a (xs ++ ys) = (boundedBy2 a xs && boundedBy2 (a + xs.sum) ys) := by
  intro xs
  induction xs with
  | nil => intro a; simp [boundedBy2]
  | cons d xs ih =>
    intro a
    show boundedBy2 a (d :: (xs ++ ys)) = _
    rw [boundedBy2, ih (a + d), boundedBy2, List.sum_cons, ← Int.add_assoc]
    simp [Bool.and_assoc]

theorem boundedBy2_take :
    ∀ (l : List Int) (a : Int), boundedBy2 a l = true → 0 ≤ a → a ≤ 2 →
      ∀ n : Nat, 0 ≤ a + (l.take n).sum ∧ a + (l.take n).sum ≤ 2 := by
  intro l
  induction l with
  | nil =>
    intro a _ h0 h2 n
    simp [h0, h2]
  | cons d l ih =>
    intro a hb h0 h2 n
    simp only [boundedBy2, Bool.and_eq_true, decide_eq_true_eq] at hb
    cases n with
    | zero => simp [h0, h2]
    | succ n =>
      have := ih (a + d) hb.2 hb.1.1 hb.1.2 n
      simp only [List.take_succ_cons, List.sum_cons]
      constructor <;> [skip; skip] <;> omega

theorem eventBlock_deltas (env : GenEnv) (i : Nat) :
    boundedBy2 0 ((eventBlock env i).map inflightDelta) = true ∧
      ((eventBlock env i).map inflightDelta).sum = 0 := by
  unfold eventBlock settleEvents
  rcases Bool.eq_false_or_eq_true (env.mobileFirst i) with hmf | hmf <;>
    rw [hmf] <;>
      rcases env.imageResult i View.mobile with _ | u1 <;>
        rcases env.imageResult i View.desktop with _ | u2 <;>
          exact ⟨rfl, rfl⟩

theorem loopEvents_deltas (env : GenEnv) :
    ∀ is : List Nat,
      boundedBy2 0 ((loopEvents env is).map inflightDelta) = true ∧
        ((loopEvents env is).map inflightDelta).sum = 0 := by
  intro is
  induction is with
  | nil => exact ⟨rfl, rfl⟩
  | cons i is ih =>
    rw [loopEvents, List.map_append, List.sum_append, boundedBy2_append]
    have hb := eventBlock_deltas env i
    rw [hb.1, hb.2]
    simp [ih.1, ih.2]

theorem generateTrace_deltas (env : GenEnv) (input : GenerationInput) :
    boundedBy2 0 ((generateTrace env input).map inflightDelta) = true := by
  unfold generateTrace
  by_cases hss : input.screenshot.isNone
  · rw [if_pos hss]; rfl
  · rw [if_neg hss]
    cases henv : env.conceptsResult with
    | error e => rfl
    | ok r =>
      show boundedBy2 0 (0 :: 0 :: (loopEvents env (List.range r.1.length)).map
        inflightDelta) = true
      have h0 : ∀ l : List Int, boundedBy2 0 (0 :: l) = boundedBy2 0 l := by
        intro l; simp [boundedBy2]
      rw [h0, h0]
      exact (loopEvents_deltas env _).1

theorem inflight_take_eq (tr : List Event) (n : Nat) :
    inflight (tr.take n) = ((tr.map inflightDelta).take n).sum := by
  unfold inflight
  rw [List.map_take]

/-- Helper: an element of a `take` of the tail, shifted under a cons. -/
theorem mem_take_cons {α : Type} {a e : α} {l : List α} {n : Nat}
    (h : a ∈ l.take (n - 1)) : a ∈ (e :: l).take n := by
  cases n with
  | zero => simp at h
  | succ n =>
    rw [List.take_succ_cons]
    exact List.mem_cons_of_mem _ (by simpa using h)

theorem mem_take_cons_elim {α : Type} {a e : α} {l : List α} {n : Nat}
    (h : a ∈ (e :: l).take n) : a = e ∨ a ∈ l.take (n - 1) := by
  cases n with
  | zero => simp at h
  | succ n =>
    rw [List.take_succ_cons] at h
    rcases List.mem_cons.mp h with h1 | h1
    · exact Or.inl h1
    · exact Or.inr (by simpa using h1)

theorem mem_take_append_elim {α : Type} {a : α} {xs ys : List α} {n : Nat}
    (h : a ∈ (xs ++ ys).take n) :
    a ∈ xs.take n ∨ a ∈ ys.take (n - xs.length) := by
  rw [List.take_append_eq_append_take] at h
  exact List.mem_append.mp h

theorem settleEvents_no_issue (env : GenEnv) (i : Nat) (v : View) (j : Nat)
    (w : View) : Event.issueImage j w ∉ settleEvents env i v := by
  unfold settleEvents
  rcases env.imageResult i v with _ | u <;> simp

theorem eventBlock_issue_eq (env : GenEnv) (i j : Nat) (w : View)
    (h : Event.issueImage j w ∈ eventBlock env i) : j = i := by
  unfold eventBlock at h
  rcases List.mem_append.mp h with h1 | h1
  swap
  · simp at h1
  rcases List.mem_append.mp h1 with h2 | h2
  · have h3 : Event.issueImage j w = Event.issueImage i View.mobile ∨
        Event.issueImage j w = Event.issueImage i View.desktop := by
      rcases List.mem_cons.mp h2 with h4 | h4
      · exact Or.inl h4
      · exact Or.inr (List.mem_singleton.mp h4)
    rcases h3 with h4 | h4 <;> injection h4
  · exfalso
    have hm := settleEvents_no_issue env i View.mobile j w
    have hd := settleEvents_no_issue env i View.desktop j w
    have h3 : Event.issueImage j w ∈
        settleEvents env i View.mobile ++ settleEvents env i View.desktop ∨
        Event.issueImage j w ∈
        settleEvents env i View.desktop ++ settleEvents env i View.mobile := by
      by_cases hmf : env.mobileFirst i = true
      · rw [if_pos hmf] at h2; exact Or.inl h2
      · rw [if_neg hmf] at h2; exact Or.inr h2
    rcases h3 with h4 | h4 <;>
      rcases List.mem_append.mp h4 with h5 | h5 <;>
        first
        | exact hm h5
        | exact hd h5

theorem settleEvents_self_mem (env : GenEnv) (i : Nat) (v : View) :
    ∃ ok, Event.settleImage i v ok ∈ settleEvents env i v := by
  unfold settleEvents
  rcases env.imageResult i v with _ | u
  · exact ⟨false, by simp⟩
  · exact ⟨true, by simp⟩

theorem eventBlock_settle_mem (env : GenEnv) (i : Nat) (v : View) :
    ∃ ok, Event.settleImage i v ok ∈ eventBlock env i := by
  obtain ⟨ok, hok⟩ := settleEvents_self_mem env i v
  refine ⟨ok, ?_⟩
  unfold eventBlock
  by_cases hmf : env.mobileFirst i = true
  · rw [if_pos hmf]
    cases v <;> (simp only [List.mem_append]; tauto)
  · rw [if_neg hmf]
    cases v <;> (simp only [List.mem_append]; tauto)

theorem loopEvents_issue_ordering (env : GenEnv) :
    ∀ (is : List Nat) (n j : Nat) (w : View),
      Event.issueImage j w ∈ (loopEvents env is).take n →
      ∃ is1 is2, is = is1 ++ j :: is2 ∧
        ∀ i ∈ is1, ∀ v : View, ∃ ok,
          Event.settleImage i v ok ∈ (loopEvents env is).take n := by
  intro is
  induction is with
  | nil => intro n j w h; rw [loopEvents] at h; simp at h
  | cons i is ih =>
    intro n j w h
    rw [loopEvents] at h
    rcases mem_take_append_elim h with h1 | h1
    · have hj : j = i := eventBlock_issue_eq env i j w (List.mem_of_mem_take h1)
      subst hj
      exact ⟨[], is, rfl, fun i' hi' => absurd hi' (List.not_mem_nil i')⟩
    · obtain ⟨is1, is2, heq, hsettles⟩ :=
        ih (n - (eventBlock env i).length) j w h1
      have hlen : (eventBlock env i).length < n := by
        by_contra hc
        push_neg at hc
        have h0 : n - (eventBlock env i).length = 0 := by omega
        rw [h0] at h1
        simp at h1
      refine ⟨i :: is1, is2, by rw [heq]; rfl, ?_⟩
      intro i' hi' v
      rw [loopEvents, List.take_append_eq_append_take]
      rcases List.mem_cons.mp hi' with h2 | h2
      · subst h2
        obtain ⟨ok, hok⟩ := eventBlock_settle_mem env i' v
        refine ⟨ok, List.mem_append_left _ ?_⟩
        rw [List.take_of_length_le (by omega)]
        exact hok
      · obtain ⟨ok, hok⟩ := hsettles i' h2 v
        exact ⟨ok, List.mem_append_right _ hok⟩

/-- A decomposition of `range n` around an element is a decomposition at
its own index: everything before `j` is exactly `range j`. -/
theorem range_split {n j : Nat} {is1 is2 : List Nat}
    (h : List.range n = is1 ++ j :: is2) : is1 = List.range j := by
  have hlen : is1.length + (is2.length + 1) = n := by
    have hl := congrArg List.length h
    rw [List.length_range, List.length_append, List.length_cons] at hl
    omega
  have hget : (List.range n)[is1.length]? = some j := by
    rw [h, List.getElem?_append_right (Nat.le_refl _), Nat.sub_self]
    exact List.getElem?_cons_zero
  have hget2 : (List.range n)[is1.length]? = some is1.length :=
    List.getElem?_range (by omega)
  have hj : is1.length = j := Option.some.inj (hget2.symm.trans hget)
  have htake : is1 = (List.range n).take is1.length := by
    rw [h]
    exact (List.take_left _ _).symm
  rw [htake, List.take_range, Nat.min_eq_left (by omega), hj]

/-- C8: in every prefix of a run's event trace at most 2 image requests
are in flight (the two per-concept requests are issued together and
awaited together), and a request of concept `j` is issued only after both
requests of every earlier concept have settled. -/
theorem generation_at_most_two_inflight (env : GenEnv) (input : GenerationInput)
    (n : Nat) :
    (0 ≤ inflight ((generateTrace env input).take n) ∧
      inflight ((generateTrace env input).take n) ≤ 2) ∧
    (∀ j w, Event.issueImage j w ∈ (generateTrace env input).take n →
      ∀ i, i < j → ∀ v, ∃ ok,
        Event.settleImage i v ok ∈ (generateTrace env input).take n) := by
  constructor
  · have hb := boundedBy2_take ((generateTrace env input).map inflightDelta) 0
      (generateTrace_deltas env input) (le_refl 0) (by norm_num) n
    rw [inflight_take_eq]
    constructor
    · have := hb.1; omega
    · have := hb.2; omega
  · intro j w hissue i hij v
    unfold generateTrace at hissue ⊢
    by_cases hss : input.screenshot.isNone
    · rw [if_pos hss] at hissue
      simp at hissue
    · rw [if_neg hss] at hissue ⊢
      cases henv : env.conceptsResult with
      | error e =>
        rcases mem_take_cons_elim hissue with h1 | h1
        · exact absurd h1 (by simp)
        · rw [henv] at h1
          rcases mem_take_cons_elim h1 with h2 | h2
          · exact absurd h2 (by simp)
          · simp at h2
      | ok r =>
        rcases mem_take_cons_elim hissue with h1 | h1
        · exact absurd h1 (by simp)
        · rw [henv] at h1
          rcases mem_take_cons_elim h1 with h2 | h2
          · exact absurd h2 (by simp)
          · obtain ⟨is1, is2, heq, hsettles⟩ :=
              loopEvents_issue_ordering env (List.range r.1.length)
                (n - 1 - 1) j w h2
            have his1 : is1 = List.range j := range_split heq
            have hi : i ∈ is1 := by rw [his1]; exact List.mem_range.mpr hij
            obtain ⟨ok, hok⟩ := hsettles i hi v
            exact ⟨ok, mem_take_cons (mem_take_cons hok)⟩

theorem generation_at_most_two_inflight_witness :
    (0 ≤ inflight ((generateTrace envMobileFails inputW).take 3) ∧
      inflight ((generateTrace envMobileFails inputW).take 3) ≤ 2) ∧
    ∃ ok, Event.settleImage 0 View.mobile ok ∈
        (generateTrace envMobileFails inputW).take 10 :=
  ⟨(generation_at_most_two_inflight envMobileFails inputW 3).1,
    (generation_at_most_two_inflight envMobileFails inputW 10).2 1 View.mobile
      (by decide) 0 (by decide) View.mobile⟩

/-! ## Refinement (`refineAndRegenerateMockup` in `geminiService.ts`,
`handleRegenerateView` in `App.tsx`) -/

/-- Oracle for the refinement operation: `refineText p` is the outcome of
the orchestrator text call on prompt `p` (`Except.error` = the call
rejects, `Except.ok none` = response carries no text), and
`imageGen c logo v` is the outcome of `generateMockupImage`. -/
structure RefineEnv where
  refineText : String → Except Unit (Option String)
  imageGen : DesignConcept → Option String → View → Except Unit String

def viewString : View → String
  | View.mobile => "mobile"
  | View.desktop => "desktop"

/-- The orchestrator prompt of `refineAndRegenerateMockup`, built from the
company context and the original concept (whitespace condensed). -/
def orchestratorPrompt (companyInfo : String) (c : DesignConcept) (v : View) :
    String :=
  "You are a Senior Art Director and UI/UX Specialist. " ++
  "We are refining a website mockup design. " ++
  "Company Context: " ++ companyInfo ++
  " Concept Name: " ++ c.name ++
  " Concept Description: " ++ c.description ++
  " Original Image Prompt: " ++ c.imagePrompt ++
  " Task: Analyze the constraints and create a VASTLY IMPROVED, Version " ++
  "2.0 image generation prompt for a " ++ viewString v ++ " layout. " ++
  "Output: JUST the new image prompt text. Do not explain."

/-- The prompt used after the best-effort refinement step:
`let refinedPrompt = originalConcept.imagePrompt` overwritten by the
response text only when the call succeeds and the text is JS-truthy
(non-empty). -/
def refinedPromptOf (env : RefineEnv) (originalConcept : DesignConcept)
    (companyInfo : String) (deviceType : View) : String :=
  match env.refineText
      (orchestratorPrompt companyInfo originalConcept deviceType) with
  | Except.error _ => originalConcept.imagePrompt
  | Except.ok none => originalConcept.imagePrompt
  | Except.ok (some t) => if t = "" then originalConcept.imagePrompt else t

/-- The single image-generation call made by `refineAndRegenerateMockup`:
the original concept with the (refined or original) prompt, the logo, and
the requested view. -/
def refineImageCall (env : RefineEnv) (originalConcept : DesignConcept)
    (companyInfo : String) (deviceType : View) (logoBase64 : Option String) :
    DesignConcept × Option String × View :=
  ({ originalConcept with
      imagePrompt := refinedPromptOf env originalConcept companyInfo deviceType },
    logoBase64, deviceType)

/-- The image-generation requests issued by one refinement run (exactly
one, for the requested view). -/
def refineImageCalls (env : RefineEnv) (originalConcept : DesignConcept)
    (companyInfo : String) (deviceType : View) (logoBase64 : Option String) :
    List (DesignConcept × Option String × View) :=
  [refineImageCall env originalConcept companyInfo deviceType logoBase64]

/-- `refineAndRegenerateMockup`: refine the prompt (best-effort), then
regenerate one image for the requested view with the chosen prompt. -/
def refineAndRegenerateMockup (env : RefineEnv) (originalConcept : DesignConcept)
    (companyInfo : String) (deviceType : View) (logoBase64 : Option String) :
    Except Unit String :=
  let call := refineImageCall env originalConcept companyInfo deviceType logoBase64
  env.imageGen call.1 call.2.1 call.2.2

/-- C6: the refinement first asks for an improved prompt; if that call
fails or returns no (non-empty) text it silently falls back to the
original concept's `imagePrompt`; in either case exactly one image is
regenerated, for the requested view, using the chosen prompt. -/
theorem refine_falls_back_and_single_regen (env : RefineEnv)
    (originalConcept : DesignConcept) (companyInfo : String)
    (deviceType : View) (logoBase64 : Option String) :
    (∀ t, env.refineText
        (orchestratorPrompt companyInfo originalConcept deviceType) =
          Except.ok (some t) → t ≠ "" →
      refinedPromptOf env originalConcept companyInfo deviceType = t) ∧
    ((env.refineText
        (orchestratorPrompt companyInfo originalConcept deviceType) =
          Except.error () ∨
      env.refineText
        (orchestratorPrompt companyInfo originalConcept deviceType) =
          Except.ok none ∨
      env.refineText
        (orchestratorPrompt companyInfo originalConcept deviceType) =
          Except.ok (some "")) →
      refinedPromptOf env originalConcept companyInfo deviceType =
        originalConcept.imagePrompt) ∧
    refineImageCalls env originalConcept companyInfo deviceType logoBase64 =
      [({ originalConcept with
          imagePrompt :=
            refinedPromptOf env originalConcept companyInfo deviceType },
        logoBase64, deviceType)] ∧
    refineAndRegenerateMockup env originalConcept companyInfo deviceType
        logoBase64 =
      env.imageGen
        { originalConcept with
          imagePrompt :=
            refinedPromptOf env originalConcept companyInfo deviceType }
        logoBase64 deviceType := by
  refine ⟨?_, ?_, rfl, rfl⟩
  · intro t ht hne
    unfold refinedPromptOf
    rw [ht]
    show (if t = "" then originalConcept.imagePrompt else t) = t
    rw [if_neg hne]
  · intro h
    unfold refinedPromptOf
    rcases h with h | h | h <;> rw [h]
    show (if ("" : String) = "" then originalConcept.imagePrompt else "") =
      originalConcept.imagePrompt
    rw [if_pos rfl]

/-- Oracle where the prompt-refinement call always rejects and image
generation succeeds. -/
def envRefineFails : RefineEnv :=
  { refineText := fun _ => Except.error ()
    imageGen := fun _ _ v => Except.ok ("data:image/png;base64," ++ viewString v) }

theorem refine_falls_back_and_single_regen_witness :
    refinedPromptOf envRefineFails conceptA "A small company" View.mobile =
      conceptA.imagePrompt :=
  (refine_falls_back_and_single_regen envRefineFails conceptA "A small company"
    View.mobile none).2.1 (Or.inl rfl)

/-- Positional update `prev.map((m, idx) => idx === i ? f m : m)` used by
every `setGeneratedMockups` call inside `handleRegenerateView`. -/
def setAt (i : Nat) (f : GeneratedMockup → GeneratedMockup) :
    List GeneratedMockup → List GeneratedMockup
  | [] => []
  | m :: ms =>
    match i with
    | 0 => f m :: ms
    | j + 1 => m :: setAt j f ms

theorem setAt_getElem? (f : GeneratedMockup → GeneratedMockup) :
    ∀ (ms : List GeneratedMockup) (i k : Nat),
      (setAt i f ms)[k]? = if k = i then (ms[k]?).map f else ms[k]? := by
  intro ms
  induction ms with
  | nil => intro i k; simp [setAt]
  | cons m ms ih =>
    intro i k
    cases i with
    | zero =>
      cases k with
      | zero => simp [setAt]
      | succ k => simp [setAt]
    | succ i =>
      cases k with
      | zero => simp [setAt]
      | succ k =>
        show (m :: setAt i f ms)[k + 1]? =
          if k + 1 = i + 1 then Option.map f (m :: ms)[k + 1]?
          else (m :: ms)[k + 1]?
        rw [List.getElem?_cons_succ, List.getElem?_cons_succ, ih i k]
        by_cases h : k = i
        · rw [if_pos h, if_pos (by omega)]
        · rw [if_neg h, if_neg (by omega)]

theorem setAt_setAt (i : Nat) (f g : GeneratedMockup → GeneratedMockup)
    (ms : List GeneratedMockup) :
    setAt i f (setAt i g ms) = setAt i (fun m => f (g m)) ms := by
  apply List.ext_getElem?
  intro k
  rw [setAt_getElem?, setAt_getElem?, setAt_getElem?]
  by_cases h : k = i
  · rw [if_pos h, if_pos h, if_pos h, Option.map_map]
    rfl
  · rw [if_neg h, if_neg h, if_neg h]

/-- The fallback concept `handleRegenerateView` reconstructs from the
mockup card (prompts are not persisted in `GeneratedMockup`). -/
def fallbackConcept (input : GenerationInput) (m : GeneratedMockup) :
    DesignConcept :=
  { name := m.conceptName
    description := m.description
    imagePrompt := "Website design for " ++ input.url ++ ". Style: " ++
      m.conceptName ++ ". " ++ m.description }

/-- `handleRegenerateView` from `App.tsx`: mark the targeted view as
regenerating, run the refinement, then either store the new image URL in
the selected view's field (success) or only clear `regeneratingView`
(failure). -/
def handleRegenerateView (env : RefineEnv) (input : GenerationInput)
    (viewMode : View) (ms : List GeneratedMockup) (mockupId : String) :
    List GeneratedMockup :=
  match ms.findIdx? (fun m => m.id == mockupId) with
  | none => ms
  | some mockupIndex =>
    let ms1 := setAt mockupIndex
      (fun m => { m with regeneratingView := some viewMode }) ms
    match ms[mockupIndex]? with
    | none => ms1
    | some m0 =>
      let concept := fallbackConcept input m0
      match refineAndRegenerateMockup env concept input.companyInfo viewMode
          input.logo with
      | Except.ok newImageUrl =>
        setAt mockupIndex (fun m =>
          { m with
            regeneratingView := none
            mobileImageUrl :=
              if viewMode = View.mobile then some newImageUrl
              else m.mobileImageUrl
            desktopImageUrl :=
              if viewMode = View.desktop then some newImageUrl
              else m.desktopImageUrl }) ms1
      | Except.error _ =>
        setAt mockupIndex (fun m => { m with regeneratingView := none }) ms1

/-- C7: if the regeneration fails, the prior images of the targeted mockup
are intact — both image URLs of every mockup are unchanged, only the
targeted mockup's `regeneratingView` is cleared back to null, and every
other mockup is exactly as before. -/
theorem regen_failure_keeps_images (env : RefineEnv) (input : GenerationInput)
    (viewMode : View) (ms : List GeneratedMockup) (mockupId : String)
    (idx : Nat) (m0 : GeneratedMockup)
    (hidx : ms.findIdx? (fun m => m.id == mockupId) = some idx)
    (hm0 : ms[idx]? = some m0)
    (hfail : refineAndRegenerateMockup env (fallbackConcept input m0)
      input.companyInfo viewMode input.logo = Except.error ()) :
    (∀ k : Nat, ((handleRegenerateView env input viewMode ms mockupId)[k]?).map
        (fun m : GeneratedMockup => m.mobileImageUrl) =
      (ms[k]?).map (fun m : GeneratedMockup => m.mobileImageUrl)) ∧
    (∀ k : Nat, ((handleRegenerateView env input viewMode ms mockupId)[k]?).map
        (fun m : GeneratedMockup => m.desktopImageUrl) =
      (ms[k]?).map (fun m : GeneratedMockup => m.desktopImageUrl)) ∧
    (handleRegenerateView env input viewMode ms mockupId)[idx]? =
      some { m0 with regeneratingView := none } ∧
    (∀ k : Nat, k ≠ idx →
      (handleRegenerateView env input viewMode ms mockupId)[k]? = ms[k]?) := by
  have hres : handleRegenerateView env input viewMode ms mockupId =
      setAt idx (fun m => { m with regeneratingView := none }) ms := by
    unfold handleRegenerateView
    simp only [hidx, hm0, hfail]
    rw [setAt_setAt]
  rw [hres]
  refine ⟨?_, ?_, ?_, ?_⟩
  · intro k
    rw [setAt_getElem?]
    by_cases h : k = idx
    · rw [if_pos h, Option.map_map]
      rfl
    · rw [if_neg h]
  · intro k
    rw [setAt_getElem?]
    by_cases h : k = idx
    · rw [if_pos h, Option.map_map]
      rfl
    · rw [if_neg h]
  · rw [setAt_getElem?, if_pos rfl, hm0]
    rfl
  · intro k hk
    rw [setAt_getElem?, if_neg hk]

/-- C9: if the regeneration succeeds, only the selected view's image URL
of the targeted mockup is replaced; its other view's URL, id, concept
name, description and status, and every other mockup, are unchanged. -/
theorem regen_success_targets_single_view (env : RefineEnv)
    (input : GenerationInput) (viewMode : View) (ms : List GeneratedMockup)
    (mockupId : String) (idx : Nat) (m0 : GeneratedMockup) (url : String)
    (hidx : ms.findIdx? (fun m => m.id == mockupId) = some idx)
    (hm0 : ms[idx]? = some m0)
    (hok : refineAndRegenerateMockup env (fallbackConcept input m0)
      input.companyInfo viewMode input.logo = Except.ok url) :
    (∃ m', (handleRegenerateView env input viewMode ms mockupId)[idx]? =
        some m' ∧
      (viewMode = View.mobile → m'.mobileImageUrl = some url ∧
        m'.desktopImageUrl = m0.desktopImageUrl) ∧
      (viewMode = View.desktop → m'.desktopImageUrl = some url ∧
        m'.mobileImageUrl = m0.mobileImageUrl) ∧
      m'.id = m0.id ∧ m'.conceptName = m0.conceptName ∧
      m'.description = m0.description ∧ m'.status = m0.status) ∧
    (∀ k : Nat, k ≠ idx →
      (handleRegenerateView env input viewMode ms mockupId)[k]? = ms[k]?) := by
  have hres : handleRegenerateView env input viewMode ms mockupId =
      setAt idx (fun m =>
        { m with
          regeneratingView := none
          mobileImageUrl :=
            if viewMode = View.mobile then some url else m.mobileImageUrl
          desktopImageUrl :=
            if viewMode = View.desktop then some url else m.desktopImageUrl }) ms := by
    unfold handleRegenerateView
    simp only [hidx, hm0, hok]
    rw [setAt_setAt]
  rw [hres]
  constructor
  · refine ⟨{ m0 with
        regeneratingView := none
        mobileImageUrl :=
          if viewMode = View.mobile then some url else m0.mobileImageUrl
        desktopImageUrl :=
          if viewMode = View.desktop then some url else m0.desktopImageUrl },
      by rw [setAt_getElem?, if_pos rfl, hm0]; rfl, ?_, ?_, rfl, rfl,
      rfl, rfl⟩
    · intro hv
      subst hv
      constructor
      · show (if View.mobile = View.mobile then some url else m0.mobileImageUrl) =
          some url
        rw [if_pos rfl]
      · show (if View.mobile = View.desktop then some url else m0.desktopImageUrl) =
          m0.desktopImageUrl
        rw [if_neg (by decide)]
    · intro hv
      subst hv
      constructor
      · show (if View.desktop = View.desktop then some url else m0.desktopImageUrl) =
          some url
        rw [if_pos rfl]
      · show (if View.desktop = View.mobile then some url else m0.mobileImageUrl) =
          m0.mobileImageUrl
        rw [if_neg (by decide)]
  · intro k hk
    rw [setAt_getElem?, if_neg hk]

/-- A rendered mockup card used by the regeneration witnesses. -/
def mockupFix : GeneratedMockup :=
  { id := "mockup-0"
    conceptName := "Minimalist Tech"
    description := "Clean, airy layout"
    mobileImageUrl := some "data:image/png;base64,bW9iaWxl"
    desktopImageUrl := some "data:image/png;base64,ZGVza3RvcA=="
    status := Status.completed
    regeneratingView := none }

/-- Oracle where both refinement and regeneration reject. -/
def envRegenFails : RefineEnv :=
  { refineText := fun _ => Except.error ()
    imageGen := fun _ _ _ => Except.error () }

/-- Oracle where refinement rejects but regeneration succeeds. -/
def envRegenOk : RefineEnv :=
  { refineText := fun _ => Except.error ()
    imageGen := fun _ _ _ => Except.ok "data:image/png;base64,bmV3" }

theorem regen_failure_keeps_images_witness :
    (∀ k : Nat, ((handleRegenerateView envRegenFails inputW View.mobile
        [mockupFix] "mockup-0")[k]?).map
        (fun m : GeneratedMockup => m.mobileImageUrl) =
      (([mockupFix] : List GeneratedMockup)[k]?).map
        (fun m : GeneratedMockup => m.mobileImageUrl)) ∧
    (∀ k : Nat, ((handleRegenerateView envRegenFails inputW View.mobile
        [mockupFix] "mockup-0")[k]?).map
        (fun m : GeneratedMockup => m.desktopImageUrl) =
      (([mockupFix] : List GeneratedMockup)[k]?).map
        (fun m : GeneratedMockup => m.desktopImageUrl)) ∧
    (handleRegenerateView envRegenFails inputW View.mobile
        [mockupFix] "mockup-0")[0]? =
      some { mockupFix with regeneratingView := none } ∧
    (∀ k : Nat, k ≠ 0 →
      (handleRegenerateView envRegenFails inputW View.mobile
        [mockupFix] "mockup-0")[k]? = ([mockupFix] : List GeneratedMockup)[k]?) :=
  regen_failure_keeps_images envRegenFails inputW View.mobile [mockupFix]
    "mockup-0" 0 mockupFix rfl rfl rfl

theorem regen_success_targets_single_view_witness :
    (∃ m', (handleRegenerateView envRegenOk inputW View.mobile
        [mockupFix] "mockup-0")[0]? = some m' ∧
      (View.mobile = View.mobile →
        m'.mobileImageUrl = some "data:image/png;base64,bmV3" ∧
        m'.desktopImageUrl = mockupFix.desktopImageUrl) ∧
      (View.mobile = View.desktop →
        m'.desktopImageUrl = some "data:image/png;base64,bmV3" ∧
        m'.mobileImageUrl = mockupFix.mobileImageUrl) ∧
      m'.id = mockupFix.id ∧ m'.conceptName = mockupFix.conceptName ∧
      m'.description = mockupFix.description ∧ m'.status = mockupFix.status) ∧
    (∀ k : Nat, k ≠ 0 →
      (handleRegenerateView envRegenOk inputW View.mobile
        [mockupFix] "mockup-0")[k]? = ([mockupFix] : List GeneratedMockup)[k]?) :=
  regen_success_targets_single_view envRegenOk inputW View.mobile [mockupFix]
    "mockup-0" 0 mockupFix "data:image/png;base64,bmV3" rfl rfl rfl

/-! ## C10: fullscreen zoom and pan (`App.tsx`) -/

/-- The `zoom` and `pan` state of the fullscreen viewer. -/
structure ZoomPanState where
  zoom : ℚ
  panX : ℚ
  panY : ℚ
deriving DecidableEq, Repr

/-- `setZoom(prev => Math.min(prev + 0.5, 4))`. -/
def handleZoomIn (s : ZoomPanState) : ZoomPanState :=
  { s with zoom := min (s.zoom + 1/2) 4 }

/-- `setZoom(prev => Math.max(prev - 0.5, 0.5))`. -/
def handleZoomOut (s : ZoomPanState) : ZoomPanState :=
  { s with zoom := max (s.zoom - 1/2) (1/2) }

/-- `handleResetZoom`: `setZoom(1); setPan({x: 0, y: 0})`. -/
def handleResetZoom (_ : ZoomPanState) : ZoomPanState :=
  { zoom := 1, panX := 0, panY := 0 }

/-- The `useEffect` that resets zoom and pan when a new fullscreen image
opens. -/
def openFullscreenImage (_ : ZoomPanState) : ZoomPanState :=
  { zoom := 1, panX := 0, panY := 0 }

/-- `handleMouseMove` while dragging: `setPan({x: ..., y: ...})`. -/
def setPan (x y : ℚ) (s : ZoomPanState) : ZoomPanState :=
  { s with panX := x, panY := y }

/-- The zoom/pan operations the viewer can perform. -/
inductive ZoomOp where
  | zoomIn
  | zoomOut
  | reset
  | openImage
  | panTo (x y : ℚ)

def applyZoomOp : ZoomOp → ZoomPanState → ZoomPanState
  | ZoomOp.zoomIn, s => handleZoomIn s
  | ZoomOp.zoomOut, s => handleZoomOut s
  | ZoomOp.reset, s => handleResetZoom s
  | ZoomOp.openImage, s => openFullscreenImage s
  | ZoomOp.panTo x y, s => setPan x y s

def zoomInvariant (s : ZoomPanState) : Prop :=
  1/2 ≤ s.zoom ∧ s.zoom ≤ 4

/-- C10: every zoom/pan operation preserves `0.5 ≤ zoom ≤ 4`, and reset as
well as opening a new fullscreen image sets zoom to 1 and pan to (0, 0). -/
theorem zoom_ops_preserve_invariant (op : ZoomOp) (s : ZoomPanState)
    (hs : zoomInvariant s) :
    zoomInvariant (applyZoomOp op s) ∧
    ((op = ZoomOp.reset ∨ op = ZoomOp.openImage) →
      (applyZoomOp op s).zoom = 1 ∧ (applyZoomOp op s).panX = 0 ∧
      (applyZoomOp op s).panY = 0) := by
  cases op with
  | zoomIn =>
    refine ⟨⟨?_, ?_⟩, ?_⟩
    · show (1 : ℚ)/2 ≤ min (s.zoom + 1/2) 4
      apply le_min
      · linarith [hs.1]
      · norm_num
    · show min (s.zoom + 1/2) 4 ≤ 4
      exact min_le_right _ _
    · rintro (h | h) <;> exact ZoomOp.noConfusion h
  | zoomOut =>
    refine ⟨⟨?_, ?_⟩, ?_⟩
    · show (1 : ℚ)/2 ≤ max (s.zoom - 1/2) (1/2)
      exact le_max_right _ _
    · show max (s.zoom - 1/2) (1/2) ≤ 4
      apply max_le
      · linarith [hs.2]
      · norm_num
    · rintro (h | h) <;> exact ZoomOp.noConfusion h
  | reset =>
    exact ⟨⟨by show (1 : ℚ)/2 ≤ 1; norm_num, by show (1 : ℚ) ≤ 4; norm_num⟩,
      fun _ => ⟨rfl, rfl, rfl⟩⟩
  | openImage =>
    exact ⟨⟨by show (1 : ℚ)/2 ≤ 1; norm_num, by show (1 : ℚ) ≤ 4; norm_num⟩,
      fun _ => ⟨rfl, rfl, rfl⟩⟩
  | panTo x y =>
    exact ⟨hs, fun h => by rcases h with h | h <;> exact ZoomOp.noConfusion h⟩

theorem zoom_ops_preserve_invariant_witness :
    zoomInvariant (applyZoomOp ZoomOp.zoomIn
      { zoom := 1, panX := 0, panY := 0 }) ∧
    (applyZoomOp ZoomOp.reset { zoom := 1, panX := 0, panY := 0 }).zoom = 1 :=
  ⟨(zoom_ops_preserve_invariant ZoomOp.zoomIn
      { zoom := 1, panX := 0, panY := 0 }
      ⟨by norm_num, by norm_num⟩).1,
    ((zoom_ops_preserve_invariant ZoomOp.reset
      { zoom := 1, panX := 0, panY := 0 }
      ⟨by norm_num, by norm_num⟩).2 (Or.inl rfl)).1⟩
